import Mathlib

/-!
Verification of the sheet-music-tutor core against its specification.

The definitions below are a shallow embedding of the repository's
TypeScript source:

* the note/frequency model and enharmonic comparison
  (`src/unnamed/part_008`, the `noteUtils` module);
* the Leitner flash-card scheduler (`src/unnamed/part_008`, the
  `flashCards` module);
* the consensus pitch-detection loop (`src/utils/pitchDetection.ts`);
* the clock-answer matcher (`src/utils/clockUtils.ts`).

JavaScript floating-point numbers used for frequencies are modelled as
real numbers; integer-valued quantities (timestamps, box numbers,
counters, intervals in milliseconds) are modelled as `Int`/`Nat`.
-/

namespace SheetMusicTutor

/-! ### Note/frequency model (`noteUtils`) -/

/-- The twelve sharp-based pitch-class names, in chromatic order
starting at C.  Mirrors the `noteNames` array of the source (written
there as one literal array from "C" up to "B"). -/
def noteNames : List String :=
  ["C", "C#", "D", "D#"] ++ ["E", "F", "F#", "G"] ++ ["G#", "A", "A#", "B"]

/-- The `flatToSharpMap` object of the source: flat spellings mapped to
their sharp equivalents. -/
def flatToSharpMap : List (String × String) :=
  [("Db", "C#"), ("Eb", "D#"), ("Gb", "F#"), ("Ab", "G#"), ("Bb", "A#")]

/-- `flatToSharpMap[noteName] || noteName`: convert flats to sharps,
leaving every other string unchanged. -/
def normalizeNoteName (noteName : String) : String :=
  ((flatToSharpMap.lookup noteName).getD noteName)

/-- `noteNames.indexOf name`, with the `-1` failure sentinel of
JavaScript modelled as `none`. -/
def noteIdx? (name : String) : Option Nat :=
  noteNames.findIdx? (fun m => m == name)

/-- `(octave - 4) * 12 + (noteIndex - 9)`: signed semitone distance from
A4 of the note with the given chromatic index inside the given octave. -/
def semitonesFromA4 (noteIndex : Nat) (octave : Nat) : ℤ :=
  ((octave : ℤ) - 4) * 12 + ((noteIndex : ℤ) - 9)

/-- `440 * Math.pow(2, s / 12)`: equal-temperament frequency of the note
`s` semitones away from A4, as a real number. -/
noncomputable def rfreq (s : ℤ) : ℝ :=
  440 * (2 : ℝ) ^ ((s : ℝ) / 12)

/-- `getFrequency(noteName, octave)`.  The thrown
`Invalid note name` error of the source is modelled as `none`. -/
noncomputable def getFrequency (noteName : String) (octave : Nat) : Option ℝ :=
  match noteIdx? (normalizeNoteName noteName) with
  | none => none
  | some noteIndex => some (rfreq (semitonesFromA4 noteIndex octave))

/-- The `Note` record of `types.ts`: pitch-class name, octave, frequency
in Hz. -/
structure Note where
  name : String
  octave : Nat
  frequency : ℝ

/-- One element pushed by the `generateNoteSet` loop body:
`{ name, octave, frequency: getFrequency(name, octave) }`.  For every
name drawn from `noteNames` the frequency lookup succeeds, so the
`getD 0` default is never exercised there. -/
noncomputable def mkGenNote (name : String) (octave : Nat) : Note :=
  ⟨name, octave, (getFrequency name octave).getD 0⟩

/-- `generateNoteSet()`: all notes with octaves 2 through 6, octave
outer loop, chromatic inner loop. -/
noncomputable def generateNoteSet : List Note :=
  (List.range' 2 5).flatMap fun octave => noteNames.map fun name => mkGenNote name octave

open Classical in
/-- The scanning loop of `getNoteFromFrequency`: return the first note
of the list whose equal-temperament pitch is within `tolerance`
semitones of `freq`. -/
noncomputable def findNote (freq tolerance : ℝ) : List Note → Option Note
  | [] => none
  | note :: rest =>
    if |12 * Real.logb 2 (freq / note.frequency)| < tolerance then some note
    else findNote freq tolerance rest

/-- `getNoteFromFrequency(frequency, tolerance = 0.5)`. -/
noncomputable def getNoteFromFrequency (frequency : ℝ) (tolerance : ℝ := 1/2) : Option Note :=
  findNote frequency tolerance generateNoteSet

/-! ### Leitner scheduler data model (`types.ts`) -/

/-- The `Chord` record of `types.ts`. -/
structure Chord where
  name : String
  notes : List Note
  type : String

/-- The `MathProblem` record of `types.ts`. -/
structure MathProblem where
  question : String
  answer : String
  operation : Option String

/-- The `ClockProblem` record of `types.ts`. -/
structure ClockProblem where
  hour : Nat
  minute : Nat
  displayAnswer : String
  validAnswers : List String

/-- The `FlashCard` record of `types.ts`.  Optional payload fields keep
their JavaScript `undefined` default. -/
structure FlashCard where
  id : String
  note : Option Note := none
  chord : Option Chord := none
  mathProblem : Option MathProblem := none
  clockProblem : Option ClockProblem := none
  lessonId : Option String := none
  boxNumber : ℤ
  lastReviewDate : ℤ
  nextReviewDate : ℤ
  reviewCount : ℕ
  correctCount : ℕ
  incorrectCount : ℕ

/-- The `RehearsalSettings` record of `types.ts`: per-box review
intervals in milliseconds. -/
structure RehearsalSettings where
  box0Interval : ℤ
  box1Interval : ℤ
  box2Interval : ℤ
  box3Interval : ℤ
  box4Interval : ℤ

/-- The `LeitnerBox` record of `types.ts`. -/
structure LeitnerBox where
  boxNumber : ℤ
  intervalDays : ℤ

/-- The `LEITNER_BOXES` constant: 5 boxes with increasing intervals. -/
def LEITNER_BOXES : List LeitnerBox :=
  [⟨0, 0⟩, ⟨1, 1⟩, ⟨2, 3⟩, ⟨3, 7⟩, ⟨4, 14⟩]

/-! ### Leitner scheduler operations (`flashCards` module of part_008) -/

/-- `getIntervalMs(boxNumber, settings)`.  The source falls back to
`loadSettings()` when no settings are passed; the settings record is
always passed explicitly here, which covers both call paths since the
claims quantify over all settings. -/
def getIntervalMs (boxNumber : ℤ) (settings : RehearsalSettings) : ℤ :=
  if boxNumber = 0 then settings.box0Interval
  else if boxNumber = 1 then settings.box1Interval
  else if boxNumber = 2 then settings.box2Interval
  else if boxNumber = 3 then settings.box3Interval
  else if boxNumber = 4 then settings.box4Interval
  else settings.box0Interval

/-- `initializeFlashCards(notes?)`: one card per note, not yet
introduced (`boxNumber = -1`), with zeroed dates and counters. -/
noncomputable def initializeFlashCards (notes : Option (List Note)) : List FlashCard :=
  let notesToUse := notes.getD generateNoteSet
  notesToUse.enum.map fun p =>
    { id := "card-" ++ p.2.name ++ Nat.repr p.2.octave ++ "-" ++ Nat.repr p.1
      note := some p.2
      boxNumber := -1
      lastReviewDate := 0
      nextReviewDate := 0
      reviewCount := 0
      correctCount := 0
      incorrectCount := 0 }

/-- `getDueCards(cards)`: active cards whose review date has passed.
`Date.now()` is passed explicitly as `now`. -/
def getDueCards (cards : List FlashCard) (now : ℤ) : List FlashCard :=
  cards.filter fun card => decide (0 ≤ card.boxNumber) && decide (card.nextReviewDate ≤ now)

/-- `getNewCard(cards)`: the first not-yet-introduced card, if any. -/
def getNewCard (cards : List FlashCard) : Option FlashCard :=
  let newCards := cards.filter fun card => card.boxNumber == -1
  if h : 0 < newCards.length then some (newCards.get ⟨0, h⟩) else none

/-- The `availableCards` computation inside `getNextCard`: the due
cards, with the excluded card filtered out when an exclusion is given. -/
def availableCardsOf (cards : List FlashCard) (excludeCardId : Option String) (now : ℤ) :
    List FlashCard :=
  let dueCards := getDueCards cards now
  match excludeCardId with
  | some ex => dueCards.filter fun card => card.id != ex
  | none => dueCards

/-- `getNextCard(cards, excludeCardId?)`: a random due card (excluding
`excludeCardId`) if one exists, otherwise the first new card.
`Math.floor(Math.random() * availableCards.length)` is an arbitrary
index below the length; it is modelled as `pick % length` for an
arbitrary natural `pick`. -/
def getNextCard (cards : List FlashCard) (excludeCardId : Option String) (now : ℤ)
    (pick : ℕ) : Option FlashCard :=
  let availableCards := availableCardsOf cards excludeCardId now
  if h : 0 < availableCards.length then
    some (availableCards.get ⟨pick % availableCards.length, Nat.mod_lt _ h⟩)
  else
    getNewCard cards

/-- `promoteCard(card, settings)` at time `now`. -/
def promoteCard (card : FlashCard) (settings : RehearsalSettings) (now : ℤ) : FlashCard :=
  let newBoxNumber := min (card.boxNumber + 1) ((LEITNER_BOXES.length : ℤ) - 1)
  let intervalMs := getIntervalMs newBoxNumber settings
  { card with
    boxNumber := newBoxNumber
    lastReviewDate := now
    nextReviewDate := now + intervalMs
    reviewCount := card.reviewCount + 1
    correctCount := card.correctCount + 1 }

/-- `demoteCard(card, settings)` at time `now`. -/
def demoteCard (card : FlashCard) (settings : RehearsalSettings) (now : ℤ) : FlashCard :=
  let intervalMs := getIntervalMs 0 settings
  { card with
    boxNumber := 0
    lastReviewDate := now
    nextReviewDate := now + intervalMs
    reviewCount := card.reviewCount + 1
    incorrectCount := card.incorrectCount + 1 }

/-- `introduceCard(card)` at time `now`. -/
def introduceCard (card : FlashCard) (now : ℤ) : FlashCard :=
  { card with
    boxNumber := 0
    lastReviewDate := now
    nextReviewDate := now }

/-- The counter invariant of the specification:
every review is either correct or incorrect. -/
def cardInvariant (c : FlashCard) : Prop :=
  c.reviewCount = c.correctCount + c.incorrectCount

/-- All five configured intervals are positive. -/
def positiveIntervals (settings : RehearsalSettings) : Prop :=
  0 < settings.box0Interval ∧ 0 < settings.box1Interval ∧ 0 < settings.box2Interval ∧
    0 < settings.box3Interval ∧ 0 < settings.box4Interval

/-- With positive settings, every interval the scheduler can look up is
positive (the out-of-range default is `box0Interval`). -/
theorem getIntervalMs_pos (boxNumber : ℤ) (settings : RehearsalSettings)
    (hpos : positiveIntervals settings) : 0 < getIntervalMs boxNumber settings := by
  obtain ⟨h0, h1, h2, h3, h4⟩ := hpos
  unfold getIntervalMs
  split_ifs <;> assumption

/-- C2: promoting from box `b < 4` moves the card to box `b + 1`,
increments both `correctCount` and `reviewCount`, and schedules the next
review strictly in the future; promoting from box 4 stays in box 4 and
still advances the due date by the box-4 interval. -/
theorem promoteCard_spec (card : FlashCard) (settings : RehearsalSettings) (now : ℤ)
    (hpos : positiveIntervals settings) :
    (0 ≤ card.boxNumber → card.boxNumber < 4 →
      (promoteCard card settings now).boxNumber = card.boxNumber + 1 ∧
      (promoteCard card settings now).correctCount = card.correctCount + 1 ∧
      (promoteCard card settings now).reviewCount = card.reviewCount + 1 ∧
      now < (promoteCard card settings now).nextReviewDate) ∧
    (card.boxNumber = 4 →
      (promoteCard card settings now).boxNumber = 4 ∧
      (promoteCard card settings now).nextReviewDate = now + settings.box4Interval) := by
  have hlen : ((LEITNER_BOXES.length : ℤ) - 1) = 4 := by decide
  constructor
  · intro hlow hhigh
    have hmin : min (card.boxNumber + 1) ((LEITNER_BOXES.length : ℤ) - 1) = card.boxNumber + 1 := by
      rw [hlen]; omega
    refine ⟨by simp [promoteCard, hmin], rfl, rfl, ?_⟩
    show now < now + getIntervalMs (min (card.boxNumber + 1) ((LEITNER_BOXES.length : ℤ) - 1)) settings
    have := getIntervalMs_pos (min (card.boxNumber + 1) ((LEITNER_BOXES.length : ℤ) - 1)) settings hpos
    omega
  · intro h4
    have hmin : min (card.boxNumber + 1) ((LEITNER_BOXES.length : ℤ) - 1) = 4 := by
      rw [hlen, h4]; decide
    constructor
    · simp [promoteCard, hmin]
    · show now + getIntervalMs (min (card.boxNumber + 1) ((LEITNER_BOXES.length : ℤ) - 1)) settings
        = now + settings.box4Interval
      rw [hmin]
      rfl

/-- A concrete card used by the scheduler witnesses: box 2, three
reviews so far, two of them correct. -/
def witnessCard : FlashCard :=
  { id := "w", boxNumber := 2, lastReviewDate := 0, nextReviewDate := 0,
    reviewCount := 3, correctCount := 2, incorrectCount := 1 }

/-- Concrete settings used by the scheduler witnesses: all intervals
one millisecond. -/
def witnessSettings : RehearsalSettings := ⟨1, 1, 1, 1, 1⟩

/-- Witness for C2 at a concrete card in box 2 with all-ones intervals. -/
theorem promoteCard_spec_witness :
    positiveIntervals witnessSettings ∧
    ((promoteCard witnessCard witnessSettings 10).boxNumber = 2 + 1 ∧
      (promoteCard witnessCard witnessSettings 10).correctCount = 2 + 1 ∧
      (promoteCard witnessCard witnessSettings 10).reviewCount = 3 + 1 ∧
      (10 : ℤ) < (promoteCard witnessCard witnessSettings 10).nextReviewDate) := by
  refine ⟨⟨by decide, by decide, by decide, by decide, by decide⟩, ?_⟩
  exact (promoteCard_spec witnessCard witnessSettings 10
    ⟨by decide, by decide, by decide, by decide, by decide⟩).1 (by decide) (by decide)

/-- C3: demotion always lands in box 0, increments `incorrectCount` by
exactly 1 and `reviewCount` by 1, keeps `correctCount`, and schedules
the next review at `now` plus the box-0 interval. -/
theorem demoteCard_spec (card : FlashCard) (settings : RehearsalSettings) (now : ℤ) :
    (demoteCard card settings now).boxNumber = 0 ∧
    (demoteCard card settings now).incorrectCount = card.incorrectCount + 1 ∧
    (demoteCard card settings now).correctCount = card.correctCount ∧
    (demoteCard card settings now).reviewCount = card.reviewCount + 1 ∧
    (demoteCard card settings now).nextReviewDate = now + settings.box0Interval :=
  ⟨rfl, rfl, rfl, rfl, rfl⟩

/-- C4: `reviewCount = correctCount + incorrectCount` holds for every
freshly initialized card and is preserved by promotion, demotion and
introduction. -/
theorem cardInvariant_spec :
    (∀ notes : Option (List Note), ∀ c ∈ initializeFlashCards notes, cardInvariant c) ∧
    (∀ (c : FlashCard) (settings : RehearsalSettings) (now : ℤ), cardInvariant c →
      cardInvariant (promoteCard c settings now) ∧
      cardInvariant (demoteCard c settings now) ∧
      cardInvariant (introduceCard c now)) := by
  constructor
  · intro notes c hc
    obtain ⟨p, _, rfl⟩ := List.mem_map.mp hc
    rfl
  · intro c settings now hc
    refine ⟨?_, ?_, ?_⟩ <;>
      simp only [cardInvariant, promoteCard, demoteCard, introduceCard] at hc ⊢ <;> omega

/-- Witness for C4 at a concrete card satisfying the invariant. -/
theorem cardInvariant_spec_witness :
    cardInvariant witnessCard ∧
    cardInvariant (promoteCard witnessCard witnessSettings 0) := by
  have hw : cardInvariant witnessCard :=
    (by decide : witnessCard.reviewCount = witnessCard.correctCount + witnessCard.incorrectCount)
  exact ⟨hw, ((cardInvariant_spec.2 witnessCard witnessSettings 0) hw).1⟩

/-- C10: promotion, demotion and introduction preserve a card's id and
payload (note, chord, math problem, clock problem, lesson id);
introduction additionally preserves all three review counters. -/
theorem cardTransitions_frame (card : FlashCard) (settings : RehearsalSettings) (now : ℤ) :
    ((promoteCard card settings now).id = card.id ∧
      (promoteCard card settings now).note = card.note ∧
      (promoteCard card settings now).chord = card.chord ∧
      (promoteCard card settings now).mathProblem = card.mathProblem ∧
      (promoteCard card settings now).clockProblem = card.clockProblem ∧
      (promoteCard card settings now).lessonId = card.lessonId) ∧
    ((demoteCard card settings now).id = card.id ∧
      (demoteCard card settings now).note = card.note ∧
      (demoteCard card settings now).chord = card.chord ∧
      (demoteCard card settings now).mathProblem = card.mathProblem ∧
      (demoteCard card settings now).clockProblem = card.clockProblem ∧
      (demoteCard card settings now).lessonId = card.lessonId) ∧
    ((introduceCard card now).id = card.id ∧
      (introduceCard card now).note = card.note ∧
      (introduceCard card now).chord = card.chord ∧
      (introduceCard card now).mathProblem = card.mathProblem ∧
      (introduceCard card now).clockProblem = card.clockProblem ∧
      (introduceCard card now).lessonId = card.lessonId ∧
      (introduceCard card now).reviewCount = card.reviewCount ∧
      (introduceCard card now).correctCount = card.correctCount ∧
      (introduceCard card now).incorrectCount = card.incorrectCount) :=
  ⟨⟨rfl, rfl, rfl, rfl, rfl, rfl⟩, ⟨rfl, rfl, rfl, rfl, rfl, rfl⟩,
    ⟨rfl, rfl, rfl, rfl, rfl, rfl, rfl, rfl, rfl⟩⟩

/-! ### C1: next-card selection -/

/-- A card that is due (active and past its review date) and not ruled
out by the optional exclusion id. -/
def isAvailableDue (excl : Option String) (now : ℤ) (c : FlashCard) : Prop :=
  0 ≤ c.boxNumber ∧ c.nextReviewDate ≤ now ∧ ∀ e, excl = some e → c.id ≠ e

theorem mem_availableCardsOf {cards : List FlashCard} {excl : Option String} {now : ℤ}
    {c : FlashCard} : c ∈ availableCardsOf cards excl now ↔ c ∈ cards ∧ isAvailableDue excl now c := by
  cases excl with
  | none =>
    simp [availableCardsOf, getDueCards, List.mem_filter, isAvailableDue, and_assoc]
  | some ex =>
    simp [availableCardsOf, getDueCards, List.mem_filter, isAvailableDue, and_assoc,
      bne_iff_ne]
    tauto

theorem first_element_eq_head? {α : Type _} (l : List α) :
    (if h : 0 < l.length then some (l.get ⟨0, h⟩) else none) = l.head? := by
  cases l with
  | nil => rfl
  | cons a t => rw [dif_pos (by simp)]; rfl

theorem head?_filter_eq_find? {α : Type _} (p : α → Bool) (l : List α) :
    (l.filter p).head? = l.find? p := by
  induction l with
  | nil => rfl
  | cons a t ih => cases hpa : p a <;> simp [List.filter_cons, List.find?_cons, hpa, ih]

theorem getNewCard_eq_find? (cards : List FlashCard) :
    getNewCard cards = cards.find? fun c => c.boxNumber == -1 := by
  rw [← head?_filter_eq_find?]
  exact first_element_eq_head? _

/-- C1 (amended): `getNextCard` never returns a not-yet-introduced card
while some card other than the excluded one is due; when no
non-excluded card is due it returns the first card with
`boxNumber = -1` in insertion order, or `none` if no new card remains. -/
theorem getNextCard_spec (cards : List FlashCard) (excl : Option String) (now : ℤ) (pick : ℕ) :
    ((∃ d ∈ cards, isAvailableDue excl now d) →
      ∀ c, getNextCard cards excl now pick = some c → c.boxNumber ≠ -1) ∧
    ((∀ d ∈ cards, ¬isAvailableDue excl now d) →
      getNextCard cards excl now pick = cards.find? fun c => c.boxNumber == -1) := by
  constructor
  · rintro ⟨d, hd, hdue⟩ c hc
    have hpos : 0 < (availableCardsOf cards excl now).length := by
      have : d ∈ availableCardsOf cards excl now := mem_availableCardsOf.mpr ⟨hd, hdue⟩
      exact List.length_pos.mpr (List.ne_nil_of_mem this)
    rw [getNextCard, dif_pos hpos] at hc
    have hmem : c ∈ availableCardsOf cards excl now := by
      cases Option.some.inj hc
      exact List.get_mem _ _ _
    have := (mem_availableCardsOf.mp hmem).2.1
    omega
  · intro h
    have hnil : availableCardsOf cards excl now = [] := by
      rw [List.eq_nil_iff_forall_not_mem]
      intro c hc
      obtain ⟨hc1, hc2⟩ := mem_availableCardsOf.mp hc
      exact h c hc1 hc2
    have hneg : ¬0 < (availableCardsOf cards excl now).length := by
      rw [hnil]; simp
    rw [getNextCard, dif_neg hneg, getNewCard_eq_find?]

/-- A concrete due card: active in box 0 and due at time 0. -/
def dueCardA : FlashCard :=
  { id := "a", boxNumber := 0, lastReviewDate := 0, nextReviewDate := 0,
    reviewCount := 0, correctCount := 0, incorrectCount := 0 }

/-- A concrete not-yet-introduced card. -/
def newCardB : FlashCard :=
  { id := "b", boxNumber := -1, lastReviewDate := 0, nextReviewDate := 0,
    reviewCount := 0, correctCount := 0, incorrectCount := 0 }

/-- Counterexample to C1 as stated: with the only due card excluded,
`getNextCard` returns a card with `boxNumber = -1` even though the
collection contains a card with `boxNumber ≥ 0` and
`nextReviewDate ≤ now`. -/
theorem getNextCard_excluded_cex :
    (dueCardA ∈ [dueCardA, newCardB] ∧ 0 ≤ dueCardA.boxNumber ∧ dueCardA.nextReviewDate ≤ 5) ∧
    getNextCard [dueCardA, newCardB] (some "a") 5 0 = some newCardB ∧
    newCardB.boxNumber = -1 :=
  ⟨⟨.head _, by decide, by decide⟩, rfl, rfl⟩

/-- Witness for C1 on a one-card collection with no exclusion. -/
theorem getNextCard_spec_witness : dueCardA.boxNumber ≠ -1 := by
  have hav : isAvailableDue none 5 dueCardA :=
    ⟨by decide, by decide, fun e h => nomatch h⟩
  exact (getNextCard_spec [dueCardA] none 5 0).1 ⟨dueCardA, .head _, hav⟩ dueCardA rfl

/-! ### C5: stable pitch detection (`pitchDetection.ts`)

`detectPitchStable(durationMs, requiredConsensus)` polls `detectPitch()`
every 50 ms.  A run is modelled by the list of per-tick results
(`none` when `detectPitch` returned `null` or a result without a note)
observed before the `durationMs` timeout fires, plus a stream `extras`
of results for the additional `detectPitch()` calls the timeout branch
makes. -/

/-- The note key used for tallies: `` `${name}${octave}` ``. -/
def noteKey (n : Note) : String := n.name ++ Nat.repr n.octave

/-- `detections.set(noteKey, (detections.get(noteKey) || 0) + 1)` on an
insertion-ordered map (JavaScript `Map` preserves insertion order). -/
def tallyInc (m : List (String × ℕ)) (k : String) : List (String × ℕ) :=
  if m.any fun e => e.1 == k then
    m.map fun e => if e.1 == k then (e.1, e.2 + 1) else e
  else m ++ [(k, 1)]

/-- The consensus check: some tally has reached `requiredConsensus`. -/
def hasConsensus (m : List (String × ℕ)) (requiredConsensus : ℕ) : Bool :=
  m.any fun e => requiredConsensus ≤ e.2

/-- The timeout branch of `detectPitchStable`: scan the tally entries in
insertion order; each time a count exceeds the running maximum, call
`detectPitch()` again (the `calls`-th extra call) and, if that fresh
call yields a note, overwrite `bestNote` with it. -/
def timeoutBest (extras : ℕ → Option Note) :
    List (String × ℕ) → ℕ → Option Note → ℕ → Option Note
  | [], _, bestNote, _ => bestNote
  | e :: rest, maxCount, bestNote, calls =>
    if maxCount < e.2 then
      match extras calls with
      | some n => timeoutBest extras rest e.2 (some n) (calls + 1)
      | none => timeoutBest extras rest e.2 bestNote (calls + 1)
    else timeoutBest extras rest maxCount bestNote calls

/-- The polling loop of `detectPitchStable`: on each tick with a note,
tally it and resolve with that tick's note once any tally reaches the
required consensus; when the tick list is exhausted (the timeout), run
the timeout branch. -/
def detectLoop (requiredConsensus : ℕ) (extras : ℕ → Option Note) :
    List (Option Note) → List (String × ℕ) → Option Note
  | [], detections => timeoutBest extras detections 0 none 0
  | t :: rest, detections =>
    match t with
    | some note =>
      let d := tallyInc detections (noteKey note)
      if hasConsensus d requiredConsensus then some note
      else detectLoop requiredConsensus extras rest d
    | none => detectLoop requiredConsensus extras rest detections

/-- `detectPitchStable(durationMs, requiredConsensus)` over a run of
per-tick detections. -/
def detectPitchStable (ticks : List (Option Note)) (requiredConsensus : ℕ)
    (extras : ℕ → Option Note) : Option Note :=
  detectLoop requiredConsensus extras ticks []

/-- How often a note key was detected during a run. -/
def keyOccurrences (ticks : List (Option Note)) (k : String) : ℕ :=
  (ticks.filterMap id).countP fun n => noteKey n == k

/-- A C4 detection (the frequency field is irrelevant to the loop). -/
def tickC4 : Note := ⟨"C", 4, 0⟩

/-- A D4 detection. -/
def tickD4 : Note := ⟨"D", 4, 0⟩

/-- An E4 detection. -/
def tickE4 : Note := ⟨"E", 4, 0⟩

/-- C5: the timeout branch does not return the most-frequently-seen
note.  In a run seeing C4 twice and D4 once (no key reaches the
required consensus of 3), if the fresh `detectPitch()` call made in the
timeout branch returns E4, the function resolves E4 — a note never seen
during the run — instead of the most-frequent C4. -/
theorem detectPitchStable_timeout_bug :
    keyOccurrences [some tickC4, some tickC4, some tickD4] "C4" = 2 ∧
    keyOccurrences [some tickC4, some tickC4, some tickD4] "D4" = 1 ∧
    keyOccurrences [some tickC4, some tickC4, some tickD4] "E4" = 0 ∧
    detectPitchStable [some tickC4, some tickC4, some tickD4] 3 (fun _ => some tickE4) =
      some tickE4 ∧
    noteKey tickE4 = "E4" :=
  ⟨rfl, rfl, rfl, rfl, rfl⟩

/-! ### C8: clock-answer matching (`clockUtils.ts`) -/

/-- JavaScript `toLowerCase()` restricted to the alphabet this module
uses: ASCII letters plus the Norwegian letters Æ, Ø, Å. -/
def jsCharLower (c : Char) : Char :=
  if 'A' ≤ c ∧ c ≤ 'Z' then Char.ofNat (c.toNat + 32)
  else if c = 'Æ' then 'æ'
  else if c = 'Ø' then 'ø'
  else if c = 'Å' then 'å'
  else c

/-- `toLowerCase()` over a whole string. -/
def jsToLower (s : String) : String := String.mk (s.data.map jsCharLower)

/-- JavaScript `trim()`: strip whitespace from both ends. -/
def jsTrim (s : String) : String :=
  String.mk (((s.data.dropWhile Char.isWhitespace).reverse.dropWhile Char.isWhitespace).reverse)

/-- Replace the first occurrence of `pat` in the character list with
`rep` (JavaScript `replace` with a string pattern). -/
def listReplaceFirst (s pat rep : List Char) : List Char :=
  match s with
  | [] => []
  | c :: rest =>
    if pat.isPrefixOf (c :: rest) then rep ++ (c :: rest).drop pat.length
    else c :: listReplaceFirst rest pat rep

/-- JavaScript `replace(pattern, replacement)` for string patterns:
replaces the first occurrence only. -/
def jsReplaceFirst (s pat rep : String) : String :=
  String.mk (listReplaceFirst s.data pat.data rep.data)

/-- `padStart(2, '0')`. -/
def padStart2 (s : String) : String :=
  if s.length < 2 then String.mk (List.replicate (2 - s.length) '0') ++ s else s

/-- The `NORWEGIAN_HOURS` record (keys 0 through 12; any other key is a
JavaScript `undefined` lookup, unreachable through the `% 12` accessors). -/
def NORWEGIAN_HOURS : ℕ → String
  | 0 => "tolv"
  | 1 => "ett"
  | 2 => "to"
  | 3 => "tre"
  | 4 => "fire"
  | 5 => "fem"
  | 6 => "seks"
  | 7 => "sju"
  | 8 => "åtte"
  | 9 => "ni"
  | 10 => "ti"
  | 11 => "elleve"
  | 12 => "tolv"
  | _ => ""

/-- `getHourWord(hour)`. -/
def getHourWord (hour : ℕ) : String := NORWEGIAN_HOURS (hour % 12)

/-- `getNextHourWord(hour)`. -/
def getNextHourWord (hour : ℕ) : String := NORWEGIAN_HOURS ((hour + 1) % 12)

/-- `formatDigital24(hour, minute)`. -/
def formatDigital24 (hour minute : ℕ) : String :=
  padStart2 (Nat.repr hour) ++ ":" ++ padStart2 (Nat.repr minute)

/-- `formatDigital12(hour, minute)`: `hour % 12 || 12`. -/
def formatDigital12 (hour minute : ℕ) : String :=
  let displayHour := if hour % 12 = 0 then 12 else hour % 12
  Nat.repr displayHour ++ ":" ++ padStart2 (Nat.repr minute)

/-- `getNorwegianTimePhrase(hour, minute)`. -/
def getNorwegianTimePhrase (hour minute : ℕ) : String :=
  let hourWord := getHourWord hour
  let nextHourWord := getNextHourWord hour
  if minute = 0 then "klokken er " ++ hourWord
  else if minute = 30 then "klokken er halv " ++ nextHourWord
  else if minute = 15 then "klokken er kvart over " ++ hourWord
  else if minute = 45 then "klokken er kvart på " ++ nextHourWord
  else if minute < 30 then
    if minute = 5 then "klokken er fem over " ++ hourWord
    else if minute = 10 then "klokken er ti over " ++ hourWord
    else if minute = 20 then "klokken er ti på halv " ++ nextHourWord
    else if minute = 25 then "klokken er fem på halv " ++ nextHourWord
    else "klokken er " ++ Nat.repr minute ++ " over " ++ hourWord
  else
    let minutesTo := 60 - minute
    if minute = 35 then "klokken er fem over halv " ++ nextHourWord
    else if minute = 40 then "klokken er ti over halv " ++ nextHourWord
    else if minute = 50 then "klokken er ti på " ++ nextHourWord
    else if minute = 55 then "klokken er fem på " ++ nextHourWord
    else "klokken er " ++ Nat.repr minutesTo ++ " på " ++ nextHourWord

/-- The `ClockLanguage` union of `types.ts` (currently only Norwegian). -/
inductive ClockLanguage where
  | no

/-- `getValidAnswers(hour, minute, language)`.  The `phrase.replace`
call removes the single leading `klokken er ` occurrence; every phrase
contains that text at most once, so replace-all coincides with
JavaScript's replace-first. -/
def getValidAnswers (hour minute : ℕ) (language : ClockLanguage) : List String :=
  let answers := [formatDigital24 hour minute, formatDigital12 hour minute]
  let answers := answers ++
    (if hour < 10 then [Nat.repr hour ++ ":" ++ padStart2 (Nat.repr minute)] else [])
  let answers := answers ++
    (if minute < 10 then
      [padStart2 (Nat.repr hour) ++ ":" ++ Nat.repr minute,
        Nat.repr hour ++ ":" ++ Nat.repr minute]
    else [])
  let answers := answers ++
    (if minute = 0 then
      [Nat.repr hour, Nat.repr (if hour % 12 = 0 then 12 else hour % 12)]
    else [])
  let answers := answers ++
    (match language with
    | .no =>
      let phrase := getNorwegianTimePhrase hour minute
      let shortPhrase := jsReplaceFirst phrase "klokken er " ""
      [phrase, shortPhrase] ++
        (if minute = 0 then [getHourWord hour]
        else if minute = 30 then ["halv " ++ getNextHourWord hour]
        else if minute = 15 then ["kvart over " ++ getHourWord hour]
        else if minute = 45 then ["kvart på " ++ getNextHourWord hour]
        else []))
  answers

/-- `normalizeTimeSeparators(input)`: replace every `.` or whitespace
character with `:`. -/
def normalizeTimeSeparators (input : String) : String :=
  String.mk (input.data.map fun c => if c = '.' ∨ c.isWhitespace then ':' else c)

/-- `isValidClockAnswer(userAnswer, validAnswers)`. -/
def isValidClockAnswer (userAnswer : String) (validAnswers : List String) : Bool :=
  let trimmedAnswer := jsToLower (jsTrim userAnswer)
  let normalizedUserAnswer := normalizeTimeSeparators trimmedAnswer
  validAnswers.any fun validAnswer =>
    let normalizedValid := jsToLower (jsTrim validAnswer)
    trimmedAnswer == normalizedValid || normalizedUserAnswer == normalizedValid

/-- Counterexample to C8 as stated: for hour = 2 the 24-hour digital
form is "02:30", so "14:30" is rejected. -/
theorem clockAnswer_1430_cex :
    isValidClockAnswer "14:30" (getValidAnswers 2 30 .no) = false := by
  decide

/-- C8 (amended): the clock problem for hour = 2, minute = 30 in the
Norwegian locale accepts "02:30", "2:30", "halv tre" and
"klokken er halv tre", rejects "14:30" and "14:31", and acceptance is
case-insensitive and treats "." and " " as equivalent to ":" in the
digital forms. -/
theorem clockAnswer_scenario :
    isValidClockAnswer "02:30" (getValidAnswers 2 30 .no) = true ∧
    isValidClockAnswer "2:30" (getValidAnswers 2 30 .no) = true ∧
    isValidClockAnswer "halv tre" (getValidAnswers 2 30 .no) = true ∧
    isValidClockAnswer "klokken er halv tre" (getValidAnswers 2 30 .no) = true ∧
    isValidClockAnswer "14:30" (getValidAnswers 2 30 .no) = false ∧
    isValidClockAnswer "14:31" (getValidAnswers 2 30 .no) = false ∧
    isValidClockAnswer "2.30" (getValidAnswers 2 30 .no) = true ∧
    isValidClockAnswer "2 30" (getValidAnswers 2 30 .no) = true ∧
    isValidClockAnswer "02.30" (getValidAnswers 2 30 .no) = true ∧
    isValidClockAnswer "KLOKKEN ER HALV TRE" (getValidAnswers 2 30 .no) = true ∧
    isValidClockAnswer "Halv Tre" (getValidAnswers 2 30 .no) = true := by
  refine ⟨?_, ?_, ?_, ?_, ?_, ?_, ?_, ?_, ?_, ?_, ?_⟩ <;> decide

/-! ### Decimal representation facts

`areNotesEquivalent` compares octaves as the digit substrings produced
by the template literal `` `${name}${octave}` ``, i.e. by `Nat.repr`.
The following lemmas establish that `Nat.repr` is nonempty, consists of
digit characters, and is injective. -/

/-- Decimal digits of `n`, most significant first. -/
def digitsRec (n : ℕ) : List ℕ :=
  if _ : n < 10 then [n] else digitsRec (n / 10) ++ [n % 10]
decreasing_by exact Nat.div_lt_self (by omega) (by omega)

theorem digitsRec_lt (n : ℕ) : ∀ d ∈ digitsRec n, d < 10 := by
  induction n using Nat.strong_induction_on with
  | _ n ih =>
    rw [digitsRec]
    split
    · intro d hd
      simp only [List.mem_singleton] at hd
      omega
    · intro d hd
      rw [List.mem_append] at hd
      rcases hd with hd | hd
      · exact ih (n / 10) (Nat.div_lt_self (by omega) (by omega)) d hd
      · simp only [List.mem_singleton] at hd
        subst hd
        omega

theorem digitsRec_ne_nil (n : ℕ) : digitsRec n ≠ [] := by
  rw [digitsRec]
  split <;> simp

/-- Decode a decimal digit list (most significant first). -/
def undigits (l : List ℕ) : ℕ := l.foldl (fun a d => 10 * a + d) 0

theorem undigits_digitsRec (n : ℕ) : undigits (digitsRec n) = n := by
  induction n using Nat.strong_induction_on with
  | _ n ih =>
    rw [digitsRec]
    split
    · simp [undigits]
    · have h10 : n / 10 < n := Nat.div_lt_self (by omega) (by omega)
      have := ih (n / 10) h10
      simp only [undigits, List.foldl_append] at this ⊢
      rw [this]
      simp only [List.foldl_cons, List.foldl_nil]
      omega

theorem digitsRec_injective {a b : ℕ} (h : digitsRec a = digitsRec b) : a = b := by
  have := undigits_digitsRec a
  rw [h, undigits_digitsRec] at this
  omega

theorem digitChar_isDigit : ∀ d, d < 10 → (Nat.digitChar d).isDigit = true := by decide

theorem digitChar_inj : ∀ a, a < 10 → ∀ b, b < 10 → Nat.digitChar a = Nat.digitChar b → a = b := by
  decide

theorem map_digitChar_inj : ∀ l1 l2 : List ℕ, (∀ d ∈ l1, d < 10) → (∀ d ∈ l2, d < 10) →
    l1.map Nat.digitChar = l2.map Nat.digitChar → l1 = l2 := by
  intro l1
  induction l1 with
  | nil =>
    intro l2 _ _ h
    cases l2 with
    | nil => rfl
    | cons b t => simp at h
  | cons a t ih =>
    intro l2 h1 h2 h
    cases l2 with
    | nil => simp at h
    | cons b t2 =>
      simp only [List.map_cons, List.cons.injEq] at h
      have hab : a = b :=
        digitChar_inj a (h1 a (by simp)) b (h2 b (by simp)) h.1
      have ht : t = t2 :=
        ih t2 (fun d hd => h1 d (by simp [hd])) (fun d hd => h2 d (by simp [hd])) h.2
      rw [hab, ht]

theorem toDigitsCore_eq : ∀ (fuel n : ℕ) (ds : List Char), n < fuel →
    Nat.toDigitsCore 10 fuel n ds = (digitsRec n).map Nat.digitChar ++ ds := by
  intro fuel
  induction fuel with
  | zero => omega
  | succ fuel ih =>
    intro n ds h
    by_cases h0 : n / 10 = 0
    · have hn : n < 10 := by omega
      simp only [Nat.toDigitsCore, h0, if_true]
      rw [digitsRec, dif_pos hn, Nat.mod_eq_of_lt hn]
      rfl
    · have hlt : n / 10 < n := Nat.div_lt_self (by omega) (by omega)
      have hfuel : n / 10 < fuel := by omega
      simp only [Nat.toDigitsCore, h0, if_false]
      rw [ih (n / 10) _ hfuel]
      conv_rhs => rw [digitsRec]
      rw [dif_neg (by omega), List.map_append, List.append_assoc]
      rfl

theorem repr_data_eq (n : ℕ) : (Nat.repr n).data = (digitsRec n).map Nat.digitChar := by
  show (Nat.toDigits 10 n).asString.data = _
  rw [Nat.toDigits, toDigitsCore_eq (n + 1) n [] (by omega)]
  simp [List.asString]

theorem repr_data_ne_nil (n : ℕ) : (Nat.repr n).data ≠ [] := by
  rw [repr_data_eq]
  simp [digitsRec_ne_nil]

theorem repr_data_digits (n : ℕ) : ∀ c ∈ (Nat.repr n).data, c.isDigit = true := by
  rw [repr_data_eq]
  intro c hc
  obtain ⟨d, hd, rfl⟩ := List.mem_map.mp hc
  exact digitChar_isDigit d (digitsRec_lt n d hd)

theorem repr_injective {a b : ℕ} (h : Nat.repr a = Nat.repr b) : a = b := by
  have hdata : (Nat.repr a).data = (Nat.repr b).data := by rw [h]
  rw [repr_data_eq, repr_data_eq] at hdata
  exact digitsRec_injective (map_digitChar_inj _ _ (digitsRec_lt a) (digitsRec_lt b) hdata)

/-! ### C7: enharmonic note-string comparison (`areNotesEquivalent`) -/

/-- First character class of the note regex `^([A-G][#b]?)(\d+)$`. -/
def isNoteLetter (c : Char) : Bool := 'A' ≤ c && c ≤ 'G'

/-- The anchored regex match `^([A-G][#b]?)(\d+)$` over a character
list, returning the two capture groups (pitch-class spelling, octave
digits).  The regex engine's backtracking from a two-character name to a
one-character name can never succeed (after a one-character name the
next character would have to be a digit, but it is `#` or `b`), so the
greedy parse below is exact. -/
def parseNoteChars : List Char → Option (String × String)
  | [] => none
  | c :: rest =>
    if isNoteLetter c then
      match rest with
      | [] => none
      | c2 :: rest2 =>
        if c2 == '#' || c2 == 'b' then
          if !rest2.isEmpty && rest2.all Char.isDigit then
            some (String.mk [c, c2], String.mk rest2)
          else none
        else
          if rest.all Char.isDigit then some (String.mk [c], String.mk rest) else none
    else none

/-- `parseNote(noteStr)` inside `areNotesEquivalent`; the thrown
`Invalid note format` error is modelled as `none`. -/
def parseNote (s : String) : Option (String × String) := parseNoteChars s.data

/-- `areNotesEquivalent(note1, note2)`: `none` models the exception on
malformed input; otherwise octaves must match exactly and the
flat-normalized pitch classes are compared. -/
def areNotesEquivalent (note1 note2 : String) : Option Bool :=
  match parseNote note1, parseNote note2 with
  | some parsed1, some parsed2 =>
    if parsed1.2 ≠ parsed2.2 then some false
    else some (normalizeNoteName parsed1.1 == normalizeNoteName parsed2.1)
  | _, _ => none

/-- The pitch-class spellings accepted by `getFrequency`: the twelve
sharp names plus the five flat spellings. -/
def recognizedNames : List String := noteNames ++ ["Db", "Eb", "Gb", "Ab", "Bb"]

theorem digit_not_accidental (c : Char) (h : c.isDigit = true) :
    (c == '#' || c == 'b') = false := by
  rcases eq_or_ne c '#' with rfl | h1
  · exact absurd h (by decide)
  rcases eq_or_ne c 'b' with rfl | h2
  · exact absurd h (by decide)
  simp [h1, h2]

theorem parseNoteChars_one (c : Char) (hc : isNoteLetter c = true) (l : List Char)
    (hne : l ≠ []) (hdig : ∀ d ∈ l, d.isDigit = true) :
    parseNoteChars (c :: l) = some (String.mk [c], String.mk l) := by
  obtain ⟨d, t, rfl⟩ := List.exists_cons_of_ne_nil hne
  have hd := digit_not_accidental d (hdig d (by simp))
  simp [parseNoteChars, hc, hd, List.all_eq_true.mpr hdig]

theorem parseNoteChars_two (c c2 : Char) (hc : isNoteLetter c = true)
    (hc2 : (c2 == '#' || c2 == 'b') = true) (l : List Char)
    (hne : l ≠ []) (hdig : ∀ d ∈ l, d.isDigit = true) :
    parseNoteChars (c :: c2 :: l) = some (String.mk [c, c2], String.mk l) := by
  have hnem : l.isEmpty = false := by
    cases l
    · exact absurd rfl hne
    · rfl
  simp [parseNoteChars, hc, hc2, hnem, List.all_eq_true.mpr hdig]

theorem parseNote_name_repr (name : String) (hname : name ∈ recognizedNames) (o : ℕ) :
    parseNote (name ++ Nat.repr o) = some (name, Nat.repr o) := by
  have hne := repr_data_ne_nil o
  have hdig := repr_data_digits o
  fin_cases hname <;>
    first
    | exact parseNoteChars_two _ _ (by decide) (by decide) _ hne hdig
    | exact parseNoteChars_one _ (by decide) _ hne hdig

theorem areNotesEquivalent_eval (n1 n2 p1 p2 oc1 oc2 : String)
    (h1 : parseNote n1 = some (p1, oc1)) (h2 : parseNote n2 = some (p2, oc2)) :
    areNotesEquivalent n1 n2 =
      if oc1 ≠ oc2 then some false
      else some (normalizeNoteName p1 == normalizeNoteName p2) := by
  unfold areNotesEquivalent
  rw [h1, h2]

/-- C7: every flat spelling is equivalent to its sharp spelling within
the same octave (in both argument orders), and no pitch class is
equivalent to itself across distinct octaves. -/
theorem areNotesEquivalent_spec :
    (∀ p ∈ flatToSharpMap, ∀ o : ℕ,
      areNotesEquivalent (p.1 ++ Nat.repr o) (p.2 ++ Nat.repr o) = some true ∧
      areNotesEquivalent (p.2 ++ Nat.repr o) (p.1 ++ Nat.repr o) = some true) ∧
    (∀ name ∈ recognizedNames, ∀ o1 o2 : ℕ, o1 ≠ o2 →
      areNotesEquivalent (name ++ Nat.repr o1) (name ++ Nat.repr o2) = some false) := by
  constructor
  · intro p hp o
    fin_cases hp <;>
      constructor <;>
      · rw [areNotesEquivalent_eval _ _ _ _ _ _
            (parseNote_name_repr _ (by decide) o) (parseNote_name_repr _ (by decide) o),
          if_neg (by simp)]
        decide
  · intro name hname o1 o2 hne
    have hrepr : Nat.repr o1 ≠ Nat.repr o2 := fun h => hne (repr_injective h)
    fin_cases hname <;>
      · rw [areNotesEquivalent_eval _ _ _ _ _ _
            (parseNote_name_repr _ (by decide) o1) (parseNote_name_repr _ (by decide) o2)]
        exact if_pos hrepr

/-- Witness for C7: Db4 is equivalent to C#4, and C1 is not equivalent
to C2. -/
theorem areNotesEquivalent_spec_witness :
    (("Db", "C#") ∈ flatToSharpMap ∧
      areNotesEquivalent ("Db" ++ Nat.repr 4) ("C#" ++ Nat.repr 4) = some true) ∧
    ("C" ∈ recognizedNames ∧ (1 : ℕ) ≠ 2 ∧
      areNotesEquivalent ("C" ++ Nat.repr 1) ("C" ++ Nat.repr 2) = some false) := by
  refine ⟨⟨by decide, ?_⟩, by decide, by decide, ?_⟩
  · exact (areNotesEquivalent_spec.1 ("Db", "C#") (by decide) 4).1
  · exact areNotesEquivalent_spec.2 "C" (by decide) 1 2 (by decide)

/-! ### C9: `getFrequency` error behaviour and values -/

/-- Chromatic index of a pitch-class spelling after flat normalization
(index of A is 9); used only on recognized names, where the lookup
succeeds. -/
def chromaticIndex (name : String) : ℕ := (noteIdx? (normalizeNoteName name)).getD 0

theorem lookup_flat_eq_none (x : String) (h1 : x ≠ "Db") (h2 : x ≠ "Eb") (h3 : x ≠ "Gb")
    (h4 : x ≠ "Ab") (h5 : x ≠ "Bb") : flatToSharpMap.lookup x = none := by
  have e1 : (x == "Db") = false := beq_eq_false_iff_ne.mpr h1
  have e2 : (x == "Eb") = false := beq_eq_false_iff_ne.mpr h2
  have e3 : (x == "Gb") = false := beq_eq_false_iff_ne.mpr h3
  have e4 : (x == "Ab") = false := beq_eq_false_iff_ne.mpr h4
  have e5 : (x == "Bb") = false := beq_eq_false_iff_ne.mpr h5
  simp [flatToSharpMap, List.lookup, e1, e2, e3, e4, e5]

theorem getFrequency_of_recognized (name : String) (hname : name ∈ recognizedNames) (octave : ℕ) :
    getFrequency name octave =
      some (440 * (2 : ℝ) ^ ((semitonesFromA4 (chromaticIndex name) octave : ℝ) / 12)) := by
  fin_cases hname <;> rfl

/-- C9: `getFrequency` fails exactly on unrecognized pitch-class names;
on recognized names it returns `440 * 2 ^ (s / 12)` for the signed
semitone distance `s` from A4, so A4 maps to 440 Hz and each flat
spelling agrees with its sharp equivalent. -/
theorem getFrequency_spec :
    (∀ (name : String) (octave : ℕ),
      getFrequency name octave = none ↔ name ∉ recognizedNames) ∧
    (∀ name ∈ recognizedNames, ∀ octave : ℕ,
      getFrequency name octave =
        some (440 * (2 : ℝ) ^ ((semitonesFromA4 (chromaticIndex name) octave : ℝ) / 12))) ∧
    getFrequency "A" 4 = some 440 ∧
    (∀ p ∈ flatToSharpMap, ∀ octave : ℕ, getFrequency p.1 octave = getFrequency p.2 octave) := by
  refine ⟨?_, getFrequency_of_recognized, ?_, ?_⟩
  · intro name octave
    constructor
    · intro h hmem
      rw [getFrequency_of_recognized name hmem octave] at h
      exact Option.noConfusion h
    · intro hmem
      have hflats : flatToSharpMap.lookup name = none := by
        refine lookup_flat_eq_none name ?_ ?_ ?_ ?_ ?_ <;>
          (rintro rfl; exact hmem (by decide))
      have hnorm : normalizeNoteName name = name := by
        rw [normalizeNoteName, hflats]; rfl
      have hsharp : name ∉ noteNames := fun h => hmem (by
        simp [recognizedNames, List.mem_append]
        exact Or.inl h)
      have hidx : noteIdx? name = none := by
        rw [noteIdx?, List.findIdx?_eq_none_iff]
        intro x hx
        simp only [beq_eq_false_iff_ne, ne_eq]
        rintro rfl
        exact hsharp hx
      rw [getFrequency, hnorm, hidx]
  · have h0 : semitonesFromA4 (chromaticIndex "A") 4 = 0 := by decide
    rw [getFrequency_of_recognized "A" (by decide) 4, h0]
    norm_num
  · intro p hp octave
    fin_cases hp <;> rfl

/-- Witness for C9: an unrecognized name maps to the error value, and
Db agrees with C#. -/
theorem getFrequency_spec_witness :
    ("Q" ∉ recognizedNames ∧ getFrequency "Q" 4 = none) ∧
    (("Db", "C#") ∈ flatToSharpMap ∧ getFrequency "Db" 4 = getFrequency "C#" 4) :=
  ⟨⟨by decide, (getFrequency_spec.1 "Q" 4).mpr (by decide)⟩,
    by decide, getFrequency_spec.2.2.2 ("Db", "C#") (by decide) 4⟩

/-! ### C6: frequency/note round trip -/

theorem rfreq_pos (s : ℤ) : 0 < rfreq s :=
  mul_pos (by norm_num) (Real.rpow_pos_of_pos two_pos _)

theorem logb_rfreq (a b : ℤ) : 12 * Real.logb 2 (rfreq a / rfreq b) = (a : ℝ) - b := by
  unfold rfreq
  rw [mul_div_mul_left _ _ (by norm_num : (440 : ℝ) ≠ 0), ← Real.rpow_sub two_pos,
    Real.logb_rpow (by norm_num) (by norm_num)]
  ring

/-- Two equal-temperament pitches are within half a semitone exactly
when they are the same pitch. -/
theorem semitone_window (a b : ℤ) :
    |12 * Real.logb 2 (rfreq a / rfreq b)| < 1 / 2 ↔ a = b := by
  rw [logb_rfreq, show (a : ℝ) - b = ((a - b : ℤ) : ℝ) by push_cast; ring, ← Int.cast_abs]
  constructor
  · intro h
    have h2 : ((|a - b| : ℤ) : ℝ) < 1 := lt_of_lt_of_le h (by norm_num)
    have h3 : |a - b| < 1 := by exact_mod_cast h2
    have h4 : a - b = 0 := Int.abs_lt_one_iff.mp h3
    omega
  · rintro rfl
    norm_num

/-- The (name, octave) pairs enumerated by the `generateNoteSet` loops. -/
def notePairs : List (String × ℕ) :=
  (List.range' 2 5).flatMap fun octave => noteNames.map fun name => (name, octave)

theorem generateNoteSet_eq : generateNoteSet = notePairs.map fun p => mkGenNote p.1 p.2 := by
  unfold generateNoteSet notePairs
  rw [List.map_flatMap]
  simp [List.map_map, Function.comp_def]

/-- Signed semitone distance from A4 of a (name, octave) pair. -/
def semOfPair (p : String × ℕ) : ℤ := semitonesFromA4 ((noteIdx? p.1).getD 0) p.2

theorem mkGenNote_frequency (name : String) (h : name ∈ noteNames) (octave : ℕ) :
    (mkGenNote name octave).frequency = rfreq (semOfPair (name, octave)) := by
  fin_cases h <;> rfl

theorem notePairs_names : ∀ p ∈ notePairs, p.1 ∈ noteNames := by decide

theorem findNote_over_pairs (s0 : ℤ) (l : List (String × ℕ)) (hl : ∀ p ∈ l, p.1 ∈ noteNames) :
    findNote (rfreq s0) (1 / 2) (l.map fun p => mkGenNote p.1 p.2) =
      (l.find? fun p => semOfPair p == s0).map fun p => mkGenNote p.1 p.2 := by
  induction l with
  | nil => rfl
  | cons p t ih =>
    have hp := hl p (by simp)
    have iht := ih fun q hq => hl q (by simp [hq])
    rw [List.map_cons, findNote, mkGenNote_frequency p.1 hp p.2]
    cases hpa : (semOfPair p == s0) with
    | true =>
      have hs : s0 = semOfPair p := (beq_iff_eq.mp hpa).symm
      have hfind : List.find? (fun q => semOfPair q == s0) (p :: t) = some p :=
        List.find?_cons_of_pos _ hpa
      rw [if_pos ((semitone_window s0 (semOfPair p)).mpr hs), hfind]
      rfl
    | false =>
      have hs : ¬s0 = semOfPair p := fun h => by simp [h.symm] at hpa
      have hfind : List.find? (fun q => semOfPair q == s0) (p :: t) =
          List.find? (fun q => semOfPair q == s0) t :=
        List.find?_cons_of_neg _ (by simp [hpa])
      rw [if_neg fun hcon => hs ((semitone_window s0 (semOfPair p)).mp hcon), hfind, iht]

theorem find_notePairs : ∀ n ∈ noteNames, ∀ o ∈ List.range' 2 5,
    (notePairs.find? fun p => semOfPair p == semOfPair (n, o)) = some (n, o) := by
  decide

theorem getFrequency_sharp_eq (name : String) (hname : name ∈ noteNames) (octave : ℕ) :
    getFrequency name octave = some (rfreq (semOfPair (name, octave))) := by
  fin_cases hname <;> rfl

/-- C6 (amended): for every sharp-spelled pitch class and octave 2–6,
quantizing the note's equal-temperament frequency at the default
tolerance returns exactly that note. -/
theorem getNoteFromFrequency_roundtrip (name : String) (octave : ℕ)
    (hname : name ∈ noteNames) (hoct : octave ∈ List.range' 2 5) (f : ℝ)
    (hf : getFrequency name octave = some f) :
    getNoteFromFrequency f (1 / 2) = some ⟨name, octave, f⟩ := by
  have hfval : f = rfreq (semOfPair (name, octave)) := by
    have h := getFrequency_sharp_eq name hname octave
    rw [hf] at h
    exact Option.some.inj h
  subst hfval
  rw [getNoteFromFrequency, generateNoteSet_eq,
    findNote_over_pairs _ _ notePairs_names, find_notePairs name hname octave hoct]
  show some (mkGenNote name octave) = _
  rw [mkGenNote, hf]
  rfl

/-- Counterexample to C6 as stated: the flat spelling Db4 round-trips
to the sharp-spelled note C#4, not to Db4 itself, and a note outside
the generated octave range 2–6 (here C7) round-trips to `none`. -/
theorem getNoteFromFrequency_roundtrip_cex :
    getFrequency "Db" 4 = some (rfreq (semitonesFromA4 1 4)) ∧
    getNoteFromFrequency (rfreq (semitonesFromA4 1 4)) (1 / 2) =
      some ⟨"C#", 4, rfreq (semitonesFromA4 1 4)⟩ ∧
    (⟨"C#", 4, rfreq (semitonesFromA4 1 4)⟩ : Note) ≠ ⟨"Db", 4, rfreq (semitonesFromA4 1 4)⟩ ∧
    getFrequency "C" 7 = some (rfreq (semitonesFromA4 0 7)) ∧
    getNoteFromFrequency (rfreq (semitonesFromA4 0 7)) (1 / 2) = none := by
  refine ⟨rfl, ?_, ?_, rfl, ?_⟩
  · have hfind : (notePairs.find? fun p => semOfPair p == semOfPair ("C#", 4)) =
        some ("C#", 4) := find_notePairs "C#" (by decide) 4 (by decide)
    rw [getNoteFromFrequency, generateNoteSet_eq]
    rw [show semitonesFromA4 1 4 = semOfPair ("C#", 4) from rfl,
      findNote_over_pairs _ _ notePairs_names, hfind]
    rfl
  · intro h
    injection h with h1 _ _
    exact absurd h1 (by decide)
  · have hfind : (notePairs.find? fun p => semOfPair p == semOfPair ("C", 7)) = none := by
      decide
    rw [getNoteFromFrequency, generateNoteSet_eq]
    rw [show semitonesFromA4 0 7 = semOfPair ("C", 7) from rfl,
      findNote_over_pairs _ _ notePairs_names, hfind]
    rfl

/-- Witness for C6 at C4. -/
theorem getNoteFromFrequency_roundtrip_witness :
    ("C" ∈ noteNames ∧ (4 : ℕ) ∈ List.range' 2 5) ∧
    getNoteFromFrequency (rfreq (semitonesFromA4 0 4)) (1 / 2) =
      some ⟨"C", 4, rfreq (semitonesFromA4 0 4)⟩ :=
  ⟨⟨by decide, by decide⟩, getNoteFromFrequency_roundtrip "C" 4 (by decide) (by decide) _ rfl⟩

end SheetMusicTutor
